import Mathlib

/-!
Verification development for the FundTrackr repository.

The repository contains two generations of the same scraper:

* `src/scraper.js` — two concatenated revisions; the second revision (the
  one with `funding_history.json`, `SOURCE_PRIORITY`, `createUniqueKey`,
  `cleanOldData`, `deduplicateWithHistory` and the four-phase `run`) is the
  history-based reconciler that most claims cite.
* `src/scripts/scraper.js` — the generative-extraction rewrite
  (`parseAIResponse`, `cleanOldEntries`, `mergeEntries`, `main`).

This file gives a shallow embedding of the pure core of both: the funding
record shape, the identity-key scheme, the reconciler
(`deduplicateWithHistory`), the retention pruning, the provider-response
validation, the heuristic amount extraction, and the sink-sync/history-save
phase ordering of `run`.  Dates are modelled as seconds since the Unix
epoch (a JS `Date` value, at second precision), civil dates by the standard
days-from-civil computation used to interpret `new Date("YYYY-MM-DD")` as
midnight UTC.
-/

namespace FundTrackr

/-- The record shape produced by `processFundingArticle`
(`src/scraper.js`, second revision, lines 631-645) and stored in
`funding_history.json`.  All fields are the strings the JS object carries;
`sourcePriority` is the numeric trust rank. -/
structure Entry where
  company : String
  website : String
  linkedinUrl : String
  fundingAmount : String
  fundingRound : String
  industry : String
  description : String
  sourceLink : String
  investorName : String
  fundingNewsDate : String
  lastUpdated : String
  sourcePriority : Nat
  uniqueKey : String
deriving DecidableEq, Repr

/-- The emptiness/sentinel test used by the same-priority merge branch of
`deduplicateWithHistory` (line 680):
`!merged[key] || merged[key] === '' || merged[key] === 'Unknown' || merged[key] === 'Undisclosed'`.
For a JS string, `!v` is true exactly on the empty string, so the test
collapses to the three comparisons below. -/
def isEmptyOrSentinel (s : String) : Bool :=
  s = "" || s = "Unknown" || s = "Undisclosed"

/-- One field of the same-priority merge loop (lines 679-683): keep the
existing value unless it is empty or a sentinel, in which case take the
incoming one. -/
def fillField (e n : String) : String :=
  if isEmptyOrSentinel e then n else e

/-- The same-priority merge of `deduplicateWithHistory` (lines 676-686):
start from a copy of `existing`, overwrite every field that is empty or
sentinel with the incoming record's value (the loop runs over every key of
`newItem`, including `sourcePriority`, where JS falsiness means `0`, and
`uniqueKey`), then set `lastUpdated` to today's date string. -/
def mergeSamePriority (existing newItem : Entry) (today : String) : Entry :=
  { company := fillField existing.company newItem.company
    website := fillField existing.website newItem.website
    linkedinUrl := fillField existing.linkedinUrl newItem.linkedinUrl
    fundingAmount := fillField existing.fundingAmount newItem.fundingAmount
    fundingRound := fillField existing.fundingRound newItem.fundingRound
    industry := fillField existing.industry newItem.industry
    description := fillField existing.description newItem.description
    sourceLink := fillField existing.sourceLink newItem.sourceLink
    investorName := fillField existing.investorName newItem.investorName
    fundingNewsDate := fillField existing.fundingNewsDate newItem.fundingNewsDate
    sourcePriority :=
      if existing.sourcePriority = 0 then newItem.sourcePriority
      else existing.sourcePriority
    uniqueKey := fillField existing.uniqueKey newItem.uniqueKey
    lastUpdated := today }

/-- The higher-priority merge of `deduplicateWithHistory` (line 673):
`{ ...existing, ...newItem, lastUpdated: today }`.  `newItem` (produced by
`processFundingArticle`) defines every field of the record shape, so the
spread of `newItem` shadows every field of `existing`; the merge is the
incoming record with `lastUpdated` refreshed. -/
def mergeHigherPriority (existing newItem : Entry) (today : String) : Entry :=
  let _ := existing
  { newItem with lastUpdated := today }

/-- The JS `Map` used by `deduplicateWithHistory`, as an insertion-ordered
association list. -/
abbrev KVMap := List (String × Entry)

/-- `Map.set`: replace the value in place if the key is present (JS keeps
the original insertion position), otherwise append. -/
def mapSet (m : KVMap) (k : String) (v : Entry) : KVMap :=
  match m with
  | [] => [(k, v)]
  | (k', v') :: rest => if k' = k then (k, v) :: rest else (k', v') :: mapSet rest k v

/-- `Map.get`. -/
def mapGet (m : KVMap) (k : String) : Option Entry :=
  match m with
  | [] => none
  | (k', v') :: rest => if k' = k then some v' else mapGet rest k

/-- The key list of the map, in insertion order. -/
def mapKeys (m : KVMap) : List String := m.map Prod.fst

/-- `history.data.forEach(item => historyMap.set(item.uniqueKey, item))`
(lines 654-657). -/
def buildMap (items : List Entry) : KVMap :=
  items.foldl (fun m item => mapSet m item.uniqueKey item) []

/-- Accumulator of the main loop of `deduplicateWithHistory`: the `toAdd`
and `toUpdate` arrays plus the history map. -/
structure DedupAcc where
  toAdd : List Entry
  toUpdate : List Entry
  map : KVMap
deriving DecidableEq, Repr

/-- One iteration of the loop of `deduplicateWithHistory`
(lines 662-689): a missing key inserts the incoming record; a strictly
higher incoming priority replaces via the spread merge; an equal priority
applies the field-fill merge; a strictly lower priority is discarded. -/
def dedupStep (today : String) (acc : DedupAcc) (newItem : Entry) : DedupAcc :=
  match mapGet acc.map newItem.uniqueKey with
  | none =>
      { acc with
        toAdd := acc.toAdd ++ [newItem]
        map := mapSet acc.map newItem.uniqueKey newItem }
  | some existing =>
      if existing.sourcePriority < newItem.sourcePriority then
        let merged := mergeHigherPriority existing newItem today
        { acc with
          toUpdate := acc.toUpdate ++ [merged]
          map := mapSet acc.map newItem.uniqueKey merged }
      else if newItem.sourcePriority = existing.sourcePriority then
        let merged := mergeSamePriority existing newItem today
        { acc with
          toUpdate := acc.toUpdate ++ [merged]
          map := mapSet acc.map newItem.uniqueKey merged }
      else acc

/-- Result of `deduplicateWithHistory`: `{ toAdd, toUpdate, updatedHistory }`. -/
structure DedupResult where
  toAdd : List Entry
  toUpdate : List Entry
  updatedHistory : List Entry
deriving DecidableEq, Repr

/-- `deduplicateWithHistory(newData, history)` (`src/scraper.js`, second
revision, lines 653-692).  `historyData` is `history.data`;
`updatedHistory` is `Array.from(historyMap.values())`.  `today` is the
date string `new Date().toISOString().split('T')[0]` captured during the
run. -/
def deduplicateWithHistory (newData : List Entry) (historyData : List Entry)
    (today : String) : DedupResult :=
  let acc := newData.foldl (dedupStep today) ⟨[], [], buildMap historyData⟩
  ⟨acc.toAdd, acc.toUpdate, acc.map.map Prod.snd⟩

/-! ## Identity key (`createUniqueKey`, second revision lines 457-460) -/

/-- The whitespace class of the JS regex `\s` and of `String.prototype.trim`,
restricted to the characters that can actually occur in this pipeline
(ASCII whitespace plus no-break space). -/
def jsIsSpace (c : Char) : Bool :=
  c = ' ' || c = '\t' || c = '\n' || c = '\r' || c = '\x0b' || c = '\x0c' || c = ' '

/-- `String.prototype.toLowerCase`, for the ASCII range this code handles. -/
def jsToLower (s : String) : String := ⟨s.data.map Char.toLower⟩

/-- `String.prototype.trim`: drop leading and trailing whitespace. -/
def jsTrim (s : String) : String :=
  ⟨((s.data.dropWhile jsIsSpace).reverse.dropWhile jsIsSpace).reverse⟩

/-- Worker for `.replace(/\s+/g, '_')`: each maximal run of whitespace
becomes a single underscore.  `prevWasWS` records whether the previous
character belonged to a run already replaced. -/
def collapseWSAux (prevWasWS : Bool) : List Char → List Char
  | [] => []
  | c :: rest =>
    if jsIsSpace c then
      if prevWasWS then collapseWSAux true rest
      else '_' :: collapseWSAux true rest
    else c :: collapseWSAux false rest

/-- `.replace(/\s+/g, '_')` on a whole string. -/
def collapseWS (s : String) : String := ⟨collapseWSAux false s.data⟩

/-- `createUniqueKey(companyName, round, date)` (second revision lines
457-460):
`` `${companyName.toLowerCase().trim()}_${round.toLowerCase().trim()}_${date}`.replace(/\s+/g, '_') ``. -/
def createUniqueKey (companyName round date : String) : String :=
  collapseWS (jsTrim (jsToLower companyName) ++ "_" ++ jsTrim (jsToLower round) ++ "_" ++ date)

/-- The key formula as worded by the spec for claim C8:
`normalize(company) + "_" + normalize(fundingRound) + "_" + fundingNewsDate`
with `normalize` exactly trimming plus case-folding and no other
transformation.  Kept separate so it can be compared with
`createUniqueKey`. -/
def specClaimKeyC8 (companyName round date : String) : String :=
  jsTrim (jsToLower companyName) ++ "_" ++ jsTrim (jsToLower round) ++ "_" ++ date

/-! ## Generative-extraction parsing (`src/scripts/scraper.js`) -/

/-- The JSON object fields the provider prompt asks for
(`src/scripts/scraper.js` lines 41-49); each may be absent from the
response.  A JSON string field that is present maps to `some`, an absent
one to `none`. -/
structure AIExtraction where
  company_name : Option String
  website : Option String
  funding_round : Option String
  funding_date : Option String
  funding_amount : Option String
  investor_names : Option String
  industry : Option String
  description : Option String
deriving DecidableEq, Repr

/-- A feed article as built by `parseRSS` (`src/scripts/scraper.js`
lines 262-271). -/
structure Article where
  title : String
  link : String
  description : String
  pubDate : String
  source : String
deriving DecidableEq, Repr

/-- The record shape returned by `parseAIResponse` and stored in
`history.json` (`src/scripts/scraper.js` lines 159-170). -/
structure ScriptEntry where
  company : String
  website : String
  funding_round : String
  funding_news_date : String
  amount : String
  investor_name : String
  industry : String
  description : String
  source : String
  last_updated : String
deriving DecidableEq, Repr

/-- JS `a || b` for an optional string `a`: the default is used when the
field is absent or the empty string (the only falsy string). -/
def jsOrStr (v : Option String) (d : String) : String :=
  match v with
  | none => d
  | some s => if s = "" then d else s

/-- The validation and defaulting part of `parseAIResponse`
(`src/scripts/scraper.js` lines 152-170), applied to the already-parsed
JSON object: reject when `company_name` is falsy, the sentinel
`"Unknown"`, or shorter than 2 characters; otherwise build the record,
filling absent fields with their defaults (`funding_date` falls back to
the article's publish date, `description` to the first 150 characters of
the article description).  `today` is
`new Date().toISOString().split('T')[0]`. -/
def parseAIResponse (extracted : AIExtraction) (article : Article)
    (today : String) : Option ScriptEntry :=
  if extracted.company_name.getD "" = "" ∨ extracted.company_name.getD "" = "Unknown" ∨
      (extracted.company_name.getD "").length < 2 then none
  else some
    { company := jsOrStr extracted.company_name "Unknown"
      website := jsOrStr extracted.website ""
      funding_round := jsOrStr extracted.funding_round "Unknown"
      funding_news_date := jsOrStr extracted.funding_date article.pubDate
      amount := jsOrStr extracted.funding_amount "Undisclosed"
      investor_name := jsOrStr extracted.investor_names ""
      industry := jsOrStr extracted.industry ""
      description := jsOrStr extracted.description ⟨article.description.data.take 150⟩
      source := article.link
      last_updated := today }

/-! ## Retention pruning

`cleanOldEntries` (`src/scripts/scraper.js` lines 195-203) and
`cleanOldData` (second revision of `src/scraper.js`, lines 436-444) share
the same filter: keep an entry iff `new Date(entry.funding_news_date)` is
`>=` `now` minus 30 days.  `new Date()` is the full current instant
(with time-of-day); `new Date("YYYY-MM-DD")` is midnight UTC of that
civil day.  Instants are modelled in seconds since the Unix epoch. -/

/-- Days from the civil epoch 1970-01-01 of a proleptic-Gregorian date
(the standard `days_from_civil` computation; all divisions are on
non-negative values, so truncating division agrees with the usual floor
formulation). -/
def daysFromCivil (y m d : Int) : Int :=
  let y' := if m ≤ 2 then y - 1 else y
  let era := (if 0 ≤ y' then y' else y' - 399) / 400
  let yoe := y' - era * 400
  let mp := (m + 9) % 12
  let doy := (153 * mp + 2) / 5 + d - 1
  let doe := yoe * 365 + yoe / 4 - yoe / 100 + doy
  era * 146097 + doe - 719468

/-- Numeric value of a list of decimal digit characters. -/
def digitsToNat (cs : List Char) : Nat :=
  cs.foldl (fun acc c => acc * 10 + (c.toNat - 48)) 0

/-- Parse a `YYYY-MM-DD` string, as the ISO date fast path of the JS
`Date` constructor does; out-of-shape or out-of-range input yields an
invalid date (`none`). -/
def parseISODate (s : String) : Option (Int × Int × Int) :=
  match s.data with
  | [y1, y2, y3, y4, '-', m1, m2, '-', d1, d2] =>
    if [y1, y2, y3, y4, m1, m2, d1, d2].all Char.isDigit then
      let y : Int := digitsToNat [y1, y2, y3, y4]
      let m : Int := digitsToNat [m1, m2]
      let d : Int := digitsToNat [d1, d2]
      if 1 ≤ m ∧ m ≤ 12 ∧ 1 ≤ d ∧ d ≤ 31 then some (y, m, d) else none
    else none
  | _ => none

/-- `new Date(s).getTime()` in seconds for a date-only ISO string:
midnight UTC of the civil day; `none` is the invalid date. -/
def dateUTC (s : String) : Option Int :=
  (parseISODate s).map fun ymd => daysFromCivil ymd.1 ymd.2.1 ymd.2.2 * 86400

/-- `cleanOldEntries(entries)` (`src/scripts/scraper.js` lines 195-203)
with the ambient instant made explicit: `nowSec` is `new Date()` in
seconds; the cutoff is 30 civil days earlier; an entry is kept iff its
parsed date instant is `≥` the cutoff.  An invalid date compares as `NaN`
and is dropped. -/
def cleanOldEntries (nowSec : Int) (entries : List ScriptEntry) : List ScriptEntry :=
  entries.filter fun e =>
    match dateUTC e.funding_news_date with
    | some t => decide (nowSec - 30 * 86400 ≤ t)
    | none => false

/-! ## Heuristic amount extraction (`extractFundingInfo`, second revision
lines 531-547)

The two amount regexes are
`/\$\s?(\d+(?:\.\d{1,2})?)\s?(M|B|K)?/gi` and
`/₹?\s?(\d+(?:\.\d{1,2})?)\s?crore/gi`.  Both are embedded as
position-by-position scanners with the exact backtracking outcome of the
patterns: every optional piece (`\s?`, `₹?`, the fraction, the suffix) is
followed either by a character class disjoint from it or by nothing, so
greedy matching never needs to backtrack into an earlier piece. -/

/-- The suffix class `(M|B|K)` under the `i` flag. -/
def isMBK (c : Char) : Bool :=
  let l := c.toLower
  l = 'm' || l = 'b' || l = 'k'

/-- Consume one optional whitespace character (`\s?`). -/
def skipOneWS (cs : List Char) : List Char :=
  match cs with
  | c :: r => if jsIsSpace c then r else cs
  | [] => cs

/-- Match `\d+(?:\.\d{1,2})?`: the captured numeral characters and the
rest of the input, or `none` when no digit is present.  The fractional
group is taken greedily (at most two digits) and dropped entirely when no
digit follows the dot. -/
def takeNumber (cs : List Char) : Option (List Char × List Char) :=
  let intPart := cs.takeWhile Char.isDigit
  if intPart.isEmpty then none
  else
    let rest := cs.drop intPart.length
    match rest with
    | '.' :: r2 =>
      let frac := (r2.takeWhile Char.isDigit).take 2
      if frac.isEmpty then some (intPart, rest)
      else some (intPart ++ '.' :: frac, r2.drop frac.length)
    | _ => some (intPart, rest)

/-- Match the dollar pattern at the head of the input: returns the two
capture groups (`match[1]` numeral, `match[2]` optional suffix letter)
and the rest of the input after the match. -/
def matchDollarAt (cs : List Char) : Option (String × Option Char × List Char) :=
  match cs with
  | '$' :: r1 =>
    match takeNumber (skipOneWS r1) with
    | none => none
    | some (num, r3) =>
      let r4 := skipOneWS r3
      match r4 with
      | c :: r5 => if isMBK c then some (⟨num⟩, some c, r5) else some (⟨num⟩, none, r4)
      | [] => some (⟨num⟩, none, r4)
  | _ => none

/-- `matchAll` for the dollar pattern: scan left to right, continuing
after each match.  Fuel is the input length; every step consumes at least
one character, so the fuel never runs out before the input does. -/
def scanDollarAux : Nat → List Char → List (String × Option Char)
  | 0, _ => []
  | _ + 1, [] => []
  | fuel + 1, c :: rest =>
    match matchDollarAt (c :: rest) with
    | some (g1, g2, after) => (g1, g2) :: scanDollarAux fuel after
    | none => scanDollarAux fuel rest

/-- All dollar-pattern matches of a string, in order. -/
def scanDollar (s : String) : List (String × Option Char) :=
  scanDollarAux s.data.length s.data

/-- The literal `crore` under the `i` flag, at the head of the input. -/
def croreLit (cs : List Char) : Bool :=
  (cs.take 5).map Char.toLower = ['c', 'r', 'o', 'r', 'e']

/-- Match the crore pattern at the head of the input: the capture group
and the rest after the match. -/
def matchCroreAt (cs : List Char) : Option (String × List Char) :=
  let r1 := match cs with
    | c :: r => if c = '₹' then r else cs
    | [] => cs
  match takeNumber (skipOneWS r1) with
  | none => none
  | some (num, r3) =>
    let r4 := skipOneWS r3
    if croreLit r4 then some (⟨num⟩, r4.drop 5) else none

/-- `matchAll` for the crore pattern. -/
def scanCroreAux : Nat → List Char → List String
  | 0, _ => []
  | _ + 1, [] => []
  | fuel + 1, c :: rest =>
    match matchCroreAt (c :: rest) with
    | some (g1, after) => g1 :: scanCroreAux fuel after
    | none => scanCroreAux fuel rest

/-- All crore-pattern matches of a string, in order. -/
def scanCrore (s : String) : List String :=
  scanCroreAux s.data.length s.data

/-- The `fundingAmount` computation of `extractFundingInfo` (second
revision lines 540-547): the last dollar match wins, with `M` appended
when the suffix group is empty; otherwise the last crore match; otherwise
the sentinel.  (The independent `fundingRound` computation of the same
function is not needed by any claim and is not modelled.) -/
def extractFundingAmount (text : String) : String :=
  match (scanDollar text).getLast? with
  | some (g1, g2) =>
    "$" ++ (g1 ++ (match g2 with | some c => String.singleton c | none => "M"))
  | none =>
    match (scanCrore text).getLast? with
    | some g1 => "₹" ++ (g1 ++ " crore")
    | none => "Undisclosed"

/-! ## Phase ordering of `run` (second revision lines 887-913)

Phase 4 syncs the sheet: `getExistingSheetData` catches its own errors
(returning `[]`), `updateSheetRow` catches its own errors, but
`appendToSheet` rethrows; `run`'s catch block rethrows any error.  Phase 5
(`saveHistory`) runs only after Phase 4 completes.  The model records the
sequence of external effects a run performs and whether it succeeds. -/

/-- External effects of the sync-and-save tail of `run`. -/
inductive SinkEvent where
  | sheetRead (failed : Bool)
  | sheetAppend
  | historyWrite
deriving DecidableEq, Repr

/-- Phases 4 and 5 of `run`: read the sheet (failures swallowed), update
rows (failures swallowed, not recorded here), append new rows when
`toAdd` is non-empty (a failure propagates out of `run` before
`saveHistory`), then write the history file. -/
def runPhase4and5 (readFails appendFails hasAdds : Bool) :
    List SinkEvent × Bool :=
  let ev1 := [SinkEvent.sheetRead readFails]
  if hasAdds then
    if appendFails then (ev1 ++ [SinkEvent.sheetAppend], false)
    else (ev1 ++ [SinkEvent.sheetAppend, SinkEvent.historyWrite], true)
  else (ev1 ++ [SinkEvent.historyWrite], true)

/-! ## Well-formedness of the history map -/

/-- Every map binding stores a record under its own `uniqueKey`.  This
holds for every map `deduplicateWithHistory` builds and is what makes the
key list of the map coincide with the stored records' keys. -/
def MapWF (m : KVMap) : Prop := ∀ p ∈ m, (p.2).uniqueKey = p.1

/-! ## Concrete records used as test inputs -/

/-- The Zypp scenario's pre-existing history record: priority-5 source,
round recognized as `Seed`, amount undisclosed. -/
def zyppExisting : Entry :=
  { company := "Zypp", website := "", linkedinUrl := "https://linkedin.com/company/zypp"
    fundingAmount := "Undisclosed", fundingRound := "Seed", industry := "Technology"
    description := "Zypp raises a seed round", sourceLink := "https://example.com/a"
    investorName := "Unknown", fundingNewsDate := "2024-03-10", lastUpdated := "2024-03-10"
    sourcePriority := 5, uniqueKey := createUniqueKey "Zypp" "Seed" "2024-03-10" }

/-- The Zypp scenario's incoming record: priority-8 source, amount `$3M`,
round not recognized (so the extractor's sentinel `Unknown` enters the
key). -/
def zyppIncoming : Entry :=
  { company := "Zypp", website := "", linkedinUrl := "https://linkedin.com/company/zypp"
    fundingAmount := "$3M", fundingRound := "Unknown", industry := "Technology"
    description := "Zypp bags $3M", sourceLink := "https://inc42.com/b"
    investorName := "Unknown", fundingNewsDate := "2024-03-10", lastUpdated := "2024-03-10"
    sourcePriority := 8, uniqueKey := createUniqueKey "Zypp" "Unknown" "2024-03-10" }

/-- An existing record with a populated amount, from a priority-5
source. -/
def acmeExisting : Entry :=
  { company := "Acme", website := "", linkedinUrl := "https://linkedin.com/company/acme"
    fundingAmount := "$3M", fundingRound := "Seed", industry := "FinTech"
    description := "Acme raises $3M", sourceLink := "https://example.com/x"
    investorName := "Alpha Ventures", fundingNewsDate := "2024-03-10"
    lastUpdated := "2024-03-10", sourcePriority := 5
    uniqueKey := createUniqueKey "Acme" "Seed" "2024-03-10" }

/-- An incoming record for the same event as `acmeExisting` from a
priority-8 source whose amount extraction failed (sentinel
`Undisclosed`). -/
def acmeIncoming : Entry :=
  { company := "Acme", website := "", linkedinUrl := "https://linkedin.com/company/acme"
    fundingAmount := "Undisclosed", fundingRound := "Seed", industry := "FinTech"
    description := "Acme announces a seed round", sourceLink := "https://inc42.com/y"
    investorName := "Unknown", fundingNewsDate := "2024-03-10"
    lastUpdated := "2024-03-10", sourcePriority := 8
    uniqueKey := createUniqueKey "Acme" "Seed" "2024-03-10" }

/-- A batch record whose `lastUpdated` predates the run day, used to
exercise the second reconciliation pass. -/
def staleBatchRecord : Entry :=
  { company := "Beta", website := "", linkedinUrl := "https://linkedin.com/company/beta"
    fundingAmount := "$2M", fundingRound := "Seed", industry := "SaaS"
    description := "Beta raises $2M", sourceLink := "https://example.com/z"
    investorName := "Gamma Capital", fundingNewsDate := "2024-01-01"
    lastUpdated := "2024-01-01", sourcePriority := 5
    uniqueKey := createUniqueKey "Beta" "Seed" "2024-01-01" }

/-- A history entry (script record shape) dated 2024-01-01, used to
exercise the retention boundary. -/
def janFirstEntry : ScriptEntry :=
  { company := "Acme", website := "", funding_round := "Seed"
    funding_news_date := "2024-01-01", amount := "$1M", investor_name := ""
    industry := "SaaS", description := "Acme raises $1M"
    source := "https://example.com/acme", last_updated := "2024-01-01" }

/-- A provider response whose company name is a single character. -/
def shortNameExtraction : AIExtraction :=
  { company_name := some "X", website := none, funding_round := none
    funding_date := none, funding_amount := none, investor_names := none
    industry := none, description := none }

/-- A provider response with a valid company name and every optional
field absent. -/
def sparseExtraction : AIExtraction :=
  { company_name := some "Acme", website := none, funding_round := none
    funding_date := none, funding_amount := none, investor_names := none
    industry := none, description := none }

/-- A sample article for the extraction tests. -/
def sampleArticle : Article :=
  { title := "Acme raises $1M", link := "https://example.com/acme"
    description := "Acme, a SaaS startup, raises $1M seed round"
    pubDate := "2024-05-30", source := "example.com" }

end FundTrackr

namespace FundTrackr

/-! ## Lemmas about the history map -/

@[simp] theorem mapKeys_nil : mapKeys [] = [] := rfl

@[simp] theorem mapKeys_cons (p : String × Entry) (m : KVMap) :
    mapKeys (p :: m) = p.1 :: mapKeys m := rfl

theorem mem_keys_mapSet_self (m : KVMap) (k : String) (v : Entry) :
    k ∈ mapKeys (mapSet m k v) := by
  induction m with
  | nil => simp [mapSet]
  | cons p rest ih =>
    obtain ⟨k', v'⟩ := p
    by_cases h : k' = k
    · simp [mapSet, h]
    · simpa [mapSet, h] using Or.inr ih

theorem mem_keys_mapSet_of_mem {m : KVMap} {a : String} (k : String) (v : Entry)
    (ha : a ∈ mapKeys m) : a ∈ mapKeys (mapSet m k v) := by
  induction m with
  | nil => simp at ha
  | cons p rest ih =>
    obtain ⟨k', v'⟩ := p
    rcases (by simpa using ha : a = k' ∨ a ∈ mapKeys rest) with h1 | h1
    · by_cases h : k' = k
      · simp [mapSet, h, h1.trans h]
      · simp [mapSet, h, h1]
    · by_cases h : k' = k
      · simpa [mapSet, h] using Or.inr h1
      · simpa [mapSet, h] using Or.inr (ih h1)

theorem mem_keys_of_mem_keys_mapSet {m : KVMap} {a k : String} {v : Entry}
    (ha : a ∈ mapKeys (mapSet m k v)) : a ∈ mapKeys m ∨ a = k := by
  induction m with
  | nil =>
    simpa [mapSet] using (by simpa [mapSet] using ha : a = k)
  | cons p rest ih =>
    obtain ⟨k', v'⟩ := p
    by_cases h : k' = k
    · rcases (by simpa [mapSet, h] using ha : a = k ∨ a ∈ mapKeys rest) with h1 | h1
      · exact Or.inr h1
      · exact Or.inl (by simp [h1])
    · rcases (by simpa [mapSet, h] using ha : a = k' ∨ a ∈ mapKeys (mapSet rest k v)) with h1 | h1
      · exact Or.inl (by simp [h1])
      · rcases ih h1 with h2 | h2
        · exact Or.inl (by simpa using Or.inr h2)
        · exact Or.inr h2

theorem nodup_keys_mapSet {m : KVMap} (k : String) (v : Entry)
    (h : (mapKeys m).Nodup) : (mapKeys (mapSet m k v)).Nodup := by
  induction m with
  | nil => simp [mapSet]
  | cons p rest ih =>
    obtain ⟨k', v'⟩ := p
    rw [mapKeys_cons, List.nodup_cons] at h
    obtain ⟨h1, h2⟩ := h
    by_cases hk : k' = k
    · subst hk
      simpa [mapSet, List.nodup_cons] using ⟨h1, h2⟩
    · have h3 : k' ∉ mapKeys (mapSet rest k v) := by
        intro hmem
        rcases mem_keys_of_mem_keys_mapSet hmem with h4 | h4
        · exact h1 h4
        · exact hk h4
      simpa [mapSet, hk, List.nodup_cons] using ⟨h3, ih h2⟩

theorem mapGet_eq_none_iff {m : KVMap} {k : String} :
    mapGet m k = none ↔ k ∉ mapKeys m := by
  induction m with
  | nil => simp [mapGet]
  | cons p rest ih =>
    obtain ⟨k', v'⟩ := p
    by_cases h : k' = k
    · simp [mapGet, h]
    · simp [mapGet, h, ih, Ne.symm h]

theorem mem_of_mapGet_eq_some {m : KVMap} {k : String} {v : Entry}
    (h : mapGet m k = some v) : (k, v) ∈ m := by
  induction m with
  | nil => simp [mapGet] at h
  | cons p rest ih =>
    obtain ⟨k', v'⟩ := p
    by_cases hk : k' = k
    · subst hk
      simp [mapGet] at h
      simp [h]
    · simp [mapGet, hk] at h
      exact List.mem_cons_of_mem _ (ih h)

theorem mem_keys_of_mapGet_eq_some {m : KVMap} {k : String} {v : Entry}
    (h : mapGet m k = some v) : k ∈ mapKeys m := by
  have := mem_of_mapGet_eq_some h
  exact List.mem_map.mpr ⟨(k, v), this, rfl⟩

theorem mem_mapSet_elim {m : KVMap} {k : String} {v : Entry} {p : String × Entry}
    (hp : p ∈ mapSet m k v) : p = (k, v) ∨ p ∈ m := by
  induction m with
  | nil => simpa [mapSet] using hp
  | cons q rest ih =>
    obtain ⟨k', v'⟩ := q
    by_cases h : k' = k
    · rcases (by simpa [mapSet, h] using hp : p = (k, v) ∨ p ∈ rest) with h1 | h1
      · exact Or.inl h1
      · exact Or.inr (List.mem_cons_of_mem _ h1)
    · rcases (by simpa [mapSet, h] using hp : p = (k', v') ∨ p ∈ mapSet rest k v) with h1 | h1
      · exact Or.inr (by simp [h1])
      · rcases ih h1 with h2 | h2
        · exact Or.inl h2
        · exact Or.inr (List.mem_cons_of_mem _ h2)

theorem mapWF_mapSet {m : KVMap} {k : String} {v : Entry}
    (hm : MapWF m) (hv : v.uniqueKey = k) : MapWF (mapSet m k v) := by
  intro p hp
  rcases mem_mapSet_elim hp with h | h
  · subst h; exact hv
  · exact hm p h

theorem exists_value_of_mem_keys {m : KVMap} {a : String}
    (ha : a ∈ mapKeys m) : ∃ v, (a, v) ∈ m := by
  rcases List.mem_map.mp ha with ⟨p, hp, hfst⟩
  exact ⟨p.2, by rwa [← hfst, Prod.mk.eta]⟩

/-! ## Lemmas about `buildMap` -/

theorem mapWF_foldl_set {items : List Entry} {m0 : KVMap} (h0 : MapWF m0) :
    MapWF (items.foldl (fun m item => mapSet m item.uniqueKey item) m0) := by
  induction items generalizing m0 with
  | nil => simpa using h0
  | cons item rest ih =>
    simpa using ih (mapWF_mapSet h0 rfl)

theorem mapWF_buildMap (items : List Entry) : MapWF (buildMap items) :=
  mapWF_foldl_set (by intro p hp; simp at hp)

theorem mem_keys_foldl_set_of_mem {items : List Entry} {m0 : KVMap} {a : String}
    (ha : a ∈ mapKeys m0) :
    a ∈ mapKeys (items.foldl (fun m item => mapSet m item.uniqueKey item) m0) := by
  induction items generalizing m0 with
  | nil => simpa using ha
  | cons item rest ih =>
    simpa using ih (mem_keys_mapSet_of_mem _ _ ha)

theorem mem_keys_foldl_set_self {items : List Entry} {v : Entry}
    (hv : v ∈ items) (m0 : KVMap) :
    v.uniqueKey ∈ mapKeys (items.foldl (fun m item => mapSet m item.uniqueKey item) m0) := by
  induction items generalizing m0 with
  | nil => simp at hv
  | cons item rest ih =>
    rw [List.foldl_cons]
    rcases List.mem_cons.mp hv with rfl | hv
    · exact mem_keys_foldl_set_of_mem (mem_keys_mapSet_self _ _ _)
    · exact ih hv _

theorem mem_keys_buildMap_of_mem {items : List Entry} {v : Entry}
    (hv : v ∈ items) : v.uniqueKey ∈ mapKeys (buildMap items) :=
  mem_keys_foldl_set_self hv []

theorem nodup_keys_foldl_set {items : List Entry} {m0 : KVMap}
    (h : (mapKeys m0).Nodup) :
    (mapKeys (items.foldl (fun m item => mapSet m item.uniqueKey item) m0)).Nodup := by
  induction items generalizing m0 with
  | nil => simpa using h
  | cons item rest ih => exact ih (nodup_keys_mapSet _ _ h)

theorem nodup_keys_buildMap (items : List Entry) :
    (mapKeys (buildMap items)).Nodup :=
  nodup_keys_foldl_set (by simp)

/-! ## Lemmas about `dedupStep` and its fold -/

theorem dedupStep_keys_mono {t : String} {acc : DedupAcc} {n : Entry} {a : String}
    (ha : a ∈ mapKeys acc.map) : a ∈ mapKeys (dedupStep t acc n).map := by
  unfold dedupStep
  split
  · exact mem_keys_mapSet_of_mem _ _ ha
  · split
    · exact mem_keys_mapSet_of_mem _ _ ha
    · split
      · exact mem_keys_mapSet_of_mem _ _ ha
      · exact ha

theorem dedupStep_key_self (t : String) (acc : DedupAcc) (n : Entry) :
    n.uniqueKey ∈ mapKeys (dedupStep t acc n).map := by
  unfold dedupStep
  split
  · exact mem_keys_mapSet_self _ _ _
  · next existing hget =>
    split
    · exact mem_keys_mapSet_self _ _ _
    · split
      · exact mem_keys_mapSet_self _ _ _
      · exact mem_keys_of_mapGet_eq_some hget

theorem dedupStep_wf {t : String} {acc : DedupAcc} {n : Entry}
    (h0 : MapWF acc.map) : MapWF (dedupStep t acc n).map := by
  unfold dedupStep
  split
  · exact mapWF_mapSet h0 rfl
  · next existing hget =>
    have hex : existing.uniqueKey = n.uniqueKey :=
      h0 _ (mem_of_mapGet_eq_some hget)
    split
    · exact mapWF_mapSet h0 rfl
    · split
      · refine mapWF_mapSet h0 ?_
        show fillField existing.uniqueKey n.uniqueKey = n.uniqueKey
        rw [hex]
        simp [fillField]
      · exact h0

theorem dedupStep_nodup {t : String} {acc : DedupAcc} {n : Entry}
    (h : (mapKeys acc.map).Nodup) : (mapKeys (dedupStep t acc n).map).Nodup := by
  unfold dedupStep
  split
  · exact nodup_keys_mapSet _ _ h
  · split
    · exact nodup_keys_mapSet _ _ h
    · split
      · exact nodup_keys_mapSet _ _ h
      · exact h

theorem dedupStep_toAdd_of_mem_keys {t : String} {acc : DedupAcc} {n : Entry}
    (hmem : n.uniqueKey ∈ mapKeys acc.map) :
    (dedupStep t acc n).toAdd = acc.toAdd := by
  unfold dedupStep
  split
  · next hget => exact absurd hmem (mapGet_eq_none_iff.mp hget)
  · split
    · rfl
    · split
      · rfl
      · rfl

theorem foldl_dedup_keys_mono {t : String} {B : List Entry} {acc : DedupAcc} {a : String}
    (ha : a ∈ mapKeys acc.map) :
    a ∈ mapKeys ((B.foldl (dedupStep t) acc).map) := by
  induction B generalizing acc with
  | nil => simpa using ha
  | cons n rest ih =>
    rw [List.foldl_cons]
    exact ih (dedupStep_keys_mono ha)

theorem foldl_dedup_wf {t : String} {B : List Entry} {acc : DedupAcc}
    (h0 : MapWF acc.map) : MapWF ((B.foldl (dedupStep t) acc).map) := by
  induction B generalizing acc with
  | nil => simpa using h0
  | cons n rest ih =>
    rw [List.foldl_cons]
    exact ih (dedupStep_wf h0)

theorem foldl_dedup_nodup {t : String} {B : List Entry} {acc : DedupAcc}
    (h0 : (mapKeys acc.map).Nodup) :
    (mapKeys ((B.foldl (dedupStep t) acc).map)).Nodup := by
  induction B generalizing acc with
  | nil => simpa using h0
  | cons n rest ih =>
    rw [List.foldl_cons]
    exact ih (dedupStep_nodup h0)

theorem foldl_dedup_mem_key {t : String} {B : List Entry} {acc : DedupAcc} {n : Entry}
    (hn : n ∈ B) :
    n.uniqueKey ∈ mapKeys ((B.foldl (dedupStep t) acc).map) := by
  induction B generalizing acc with
  | nil => simp at hn
  | cons m rest ih =>
    rw [List.foldl_cons]
    rcases List.mem_cons.mp hn with rfl | hn
    · exact foldl_dedup_keys_mono (dedupStep_key_self _ _ _)
    · exact ih hn

theorem foldl_dedup_toAdd {t : String} {B : List Entry} {acc : DedupAcc}
    (h : ∀ n ∈ B, n.uniqueKey ∈ mapKeys acc.map) :
    (B.foldl (dedupStep t) acc).toAdd = acc.toAdd := by
  induction B generalizing acc with
  | nil => rfl
  | cons n rest ih =>
    rw [List.foldl_cons]
    have h2 : ∀ m ∈ rest, m.uniqueKey ∈ mapKeys (dedupStep t acc n).map :=
      fun m hm => dedupStep_keys_mono (h m (List.mem_cons_of_mem _ hm))
    rw [ih h2, dedupStep_toAdd_of_mem_keys (h n (List.mem_cons_self _ _))]

/-- Projection equations for `deduplicateWithHistory`. -/
theorem dedup_toAdd_eq (B H : List Entry) (t : String) :
    (deduplicateWithHistory B H t).toAdd
      = (B.foldl (dedupStep t) ⟨[], [], buildMap H⟩).toAdd := rfl

theorem dedup_toUpdate_eq (B H : List Entry) (t : String) :
    (deduplicateWithHistory B H t).toUpdate
      = (B.foldl (dedupStep t) ⟨[], [], buildMap H⟩).toUpdate := rfl

theorem dedup_updatedHistory_eq (B H : List Entry) (t : String) :
    (deduplicateWithHistory B H t).updatedHistory
      = ((B.foldl (dedupStep t) ⟨[], [], buildMap H⟩).map.map Prod.snd) := rfl

/-! ## Claim C6 — key uniqueness -/

/-- Claim C6 (confirmed): for every history and every incoming batch, the
history produced by reconciliation contains no two records with the same
identity key.  The history map is keyed by `uniqueKey`, every stored
record's `uniqueKey` equals its map key, and map keys are free of
duplicates, so the value list `updatedHistory` has pairwise distinct
keys. -/
theorem claim_C6_key_uniqueness (B H : List Entry) (t : String) :
    ((deduplicateWithHistory B H t).updatedHistory.map (fun e => e.uniqueKey)).Nodup := by
  rw [dedup_updatedHistory_eq, List.map_map]
  have hwf : MapWF ((B.foldl (dedupStep t) ⟨[], [], buildMap H⟩).map) :=
    foldl_dedup_wf (mapWF_buildMap H)
  have hnd : (mapKeys ((B.foldl (dedupStep t) ⟨[], [], buildMap H⟩).map)).Nodup :=
    foldl_dedup_nodup (nodup_keys_buildMap H)
  have heq : ((B.foldl (dedupStep t) ⟨[], [], buildMap H⟩).map).map
        ((fun e => e.uniqueKey) ∘ Prod.snd)
      = mapKeys ((B.foldl (dedupStep t) ⟨[], [], buildMap H⟩).map) :=
    List.map_congr_left fun p hp => hwf p hp
  rw [heq]
  exact hnd

/-! ## Claim C9 — reconciliation never removes records -/

/-- Claim C9 (confirmed): every record present in the history before
reconciliation is still present in the returned history, by identity key:
the map is seeded with every history record and `Map.set` never removes a
key. -/
theorem claim_C9_no_removal (B H : List Entry) (t : String) (e : Entry)
    (he : e ∈ H) :
    ∃ r ∈ (deduplicateWithHistory B H t).updatedHistory, r.uniqueKey = e.uniqueKey := by
  rw [dedup_updatedHistory_eq]
  have h1 : e.uniqueKey ∈ mapKeys (buildMap H) := mem_keys_buildMap_of_mem he
  have h2 : e.uniqueKey ∈ mapKeys ((B.foldl (dedupStep t) ⟨[], [], buildMap H⟩).map) :=
    foldl_dedup_keys_mono h1
  obtain ⟨v, hv⟩ := exists_value_of_mem_keys h2
  have hwf : MapWF ((B.foldl (dedupStep t) ⟨[], [], buildMap H⟩).map) :=
    foldl_dedup_wf (mapWF_buildMap H)
  exact ⟨v, List.mem_map.mpr ⟨(e.uniqueKey, v), hv, rfl⟩, hwf _ hv⟩

/-- Witness for C9: a concrete history record survives a reconciliation
that merges an incoming record on top of it. -/
theorem claim_C9_witness :
    ∃ r ∈ (deduplicateWithHistory [acmeIncoming] [acmeExisting] "2024-03-11").updatedHistory,
      r.uniqueKey = acmeExisting.uniqueKey :=
  claim_C9_no_removal [acmeIncoming] [acmeExisting] "2024-03-11" acmeExisting
    (List.mem_singleton.mpr rfl)

/-! ## Claim C2 — idempotence -/

/-- Counterexample for C2 as stated: reconciling the same one-record
batch against the history produced by the first reconciliation yields a
non-empty `toUpdate` (the equal-priority branch re-emits the record) and
rewrites the stored record's `lastUpdated`, so the second pass is neither
update-free nor history-preserving. -/
theorem claim_C2_counterexample :
    (deduplicateWithHistory [staleBatchRecord]
        (deduplicateWithHistory [staleBatchRecord] [] "2024-06-01").updatedHistory
        "2024-06-01").toUpdate ≠ [] ∧
    (deduplicateWithHistory [staleBatchRecord]
        (deduplicateWithHistory [staleBatchRecord] [] "2024-06-01").updatedHistory
        "2024-06-01").updatedHistory
      ≠ (deduplicateWithHistory [staleBatchRecord] [] "2024-06-01").updatedHistory := by
  decide

/-- Claim C2 as amended: reconciling the same batch a second time inserts
nothing (`toAdd` is empty, because every batch key is already a key of the
merged history), but the second pass is not a no-op in general: it
re-emits an update for every batch record whose priority equals the
stored record's and refreshes that record's `lastUpdated`. -/
theorem claim_C2_amended_second_pass_inserts_nothing
    (B H : List Entry) (t1 t2 : String) :
    (deduplicateWithHistory B (deduplicateWithHistory B H t1).updatedHistory t2).toAdd = [] := by
  rw [dedup_toAdd_eq]
  have hkeys : ∀ n ∈ B,
      n.uniqueKey ∈ mapKeys (buildMap (deduplicateWithHistory B H t1).updatedHistory) := by
    intro n hn
    have hk : n.uniqueKey ∈ mapKeys ((B.foldl (dedupStep t1) ⟨[], [], buildMap H⟩).map) :=
      foldl_dedup_mem_key hn
    obtain ⟨v, hv⟩ := exists_value_of_mem_keys hk
    have hwf : MapWF ((B.foldl (dedupStep t1) ⟨[], [], buildMap H⟩).map) :=
      foldl_dedup_wf (mapWF_buildMap H)
    have hveq : v.uniqueKey = n.uniqueKey := hwf _ hv
    have hvmem : v ∈ (deduplicateWithHistory B H t1).updatedHistory := by
      rw [dedup_updatedHistory_eq]
      exact List.mem_map.mpr ⟨(n.uniqueKey, v), hv, rfl⟩
    have := mem_keys_buildMap_of_mem hvmem
    rwa [hveq] at this
  rw [foldl_dedup_toAdd hkeys]

/-! ## Claim C1 — priority-dominant merge -/

/-- Counterexample for C1 as stated: with an incoming record of strictly
higher priority whose amount is the sentinel `Undisclosed`, the merged
record's amount is `Undisclosed` — the populated `$3M` of the existing
record is discarded, because the spread `{ ...existing, ...newItem }`
takes every field from the incoming record and back-fills nothing. -/
theorem claim_C1_counterexample :
    acmeExisting.sourcePriority < acmeIncoming.sourcePriority ∧
    acmeIncoming.uniqueKey = acmeExisting.uniqueKey ∧
    acmeExisting.fundingAmount = "$3M" ∧
    isEmptyOrSentinel acmeIncoming.fundingAmount = true ∧
    ((deduplicateWithHistory [acmeIncoming] [acmeExisting] "2024-03-11").updatedHistory.map
        (fun r => r.fundingAmount)) = ["Undisclosed"] := by
  decide

/-- Claim C1 as amended: when the incoming record `n` has strictly higher
priority than the existing record `e` for the same key, the merged record
equals `n` on every field (with `lastUpdated` refreshed to the run date);
no field of `n` — populated or empty/sentinel — is filled from `e`, so a
populated, non-sentinel field of `e` is replaced even by an empty or
sentinel field of `n`. -/
theorem claim_C1_amended_higher_priority_takes_all
    (e n : Entry) (t : String)
    (hkey : n.uniqueKey = e.uniqueKey)
    (hp : e.sourcePriority < n.sourcePriority) :
    (deduplicateWithHistory [n] [e] t).updatedHistory = [{ n with lastUpdated := t }] ∧
    (deduplicateWithHistory [n] [e] t).toUpdate = [{ n with lastUpdated := t }] ∧
    (deduplicateWithHistory [n] [e] t).toAdd = [] := by
  have hbuild : buildMap [e] = [(e.uniqueKey, e)] := rfl
  have hget : mapGet [(e.uniqueKey, e)] n.uniqueKey = some e := by
    simp [mapGet, hkey]
  have hstep : dedupStep t ⟨[], [], buildMap [e]⟩ n
      = ⟨[], [mergeHigherPriority e n t],
          mapSet [(e.uniqueKey, e)] n.uniqueKey (mergeHigherPriority e n t)⟩ := by
    unfold dedupStep
    rw [hbuild, hget]
    simp [hp]
  have hset : mapSet [(e.uniqueKey, e)] n.uniqueKey (mergeHigherPriority e n t)
      = [(n.uniqueKey, mergeHigherPriority e n t)] := by
    simp [mapSet, hkey]
  refine ⟨?_, ?_, ?_⟩
  · rw [dedup_updatedHistory_eq, List.foldl_cons, List.foldl_nil, hstep, hset]
    rfl
  · rw [dedup_toUpdate_eq, List.foldl_cons, List.foldl_nil, hstep]
    rfl
  · rw [dedup_toAdd_eq, List.foldl_cons, List.foldl_nil, hstep]

/-- Witness for the amended C1: the concrete Acme pair, showing the
merged record is exactly the incoming record with `lastUpdated`
refreshed. -/
theorem claim_C1_witness :
    (deduplicateWithHistory [acmeIncoming] [acmeExisting] "2024-03-11").updatedHistory
      = [{ acmeIncoming with lastUpdated := "2024-03-11" }] :=
  (claim_C1_amended_higher_priority_takes_all acmeExisting acmeIncoming "2024-03-11"
    (by decide) (by decide)).1

/-! ## Claim C4 — the Zypp scenario -/

/-- Counterexample for C4 as stated: the incoming priority-8 record's
round was not recognized, so its identity key
`zypp_unknown_2024-03-10` differs from the existing record's
`zypp_seed_2024-03-10`; reconciliation inserts it as a second record, and
no record of the resulting history has both amount `$3M` and round
`Seed`. -/
theorem claim_C4_counterexample :
    (deduplicateWithHistory [zyppIncoming] [zyppExisting] "2024-03-10").updatedHistory.length = 2 ∧
    ¬ ∃ r ∈ (deduplicateWithHistory [zyppIncoming] [zyppExisting] "2024-03-10").updatedHistory,
        r.fundingAmount = "$3M" ∧ r.fundingRound = "Seed" := by
  decide

/-- Claim C4 as amended: the Zypp reconciliation yields two history
records — the original (round `Seed`, amount `Undisclosed`) unchanged and
the incoming one (round `Unknown`, amount `$3M`) inserted as new — because
the unrecognized round makes the identity keys differ, so no merge
happens. -/
theorem claim_C4_amended_two_records :
    (deduplicateWithHistory [zyppIncoming] [zyppExisting] "2024-03-10").toAdd = [zyppIncoming] ∧
    (deduplicateWithHistory [zyppIncoming] [zyppExisting] "2024-03-10").toUpdate = [] ∧
    (deduplicateWithHistory [zyppIncoming] [zyppExisting] "2024-03-10").updatedHistory
      = [zyppExisting, zyppIncoming] := by
  decide

/-! ## Claim C3 — sink failure versus history persistence -/

/-- Claim C3 (code bug): in `run`, the sheet sync of Phase 4 precedes
`saveHistory`, and a failing append rethrows out of `run`; at that
failing input the run does end unsuccessfully, but the history write
never happens, contradicting the required persist-history-regardless
ordering.  (Conversely a failing sheet read is swallowed: the run
succeeds and the history is written, so a read error does not abort the
run either.) -/
theorem claim_C3_sink_failure_loses_history :
    (runPhase4and5 false true true).2 = false ∧
    SinkEvent.historyWrite ∉ (runPhase4and5 false true true).1 ∧
    (runPhase4and5 true false true).2 = true ∧
    SinkEvent.historyWrite ∈ (runPhase4and5 true false true).1 := by
  decide

/-! ## Claim C5 — retention boundary -/

/-- Counterexample for C5 as stated: a record dated exactly 30 civil days
before the run day is pruned whenever the run happens after midnight.
Here `now` is one second past midnight of 2024-01-31 and the record is
dated 2024-01-01, exactly 30 days earlier, yet the filter drops it: the
cutoff `now - 30 days` carries the time-of-day, and midnight of the
record's date falls strictly before it. -/
theorem claim_C5_counterexample :
    daysFromCivil 2024 1 31 = daysFromCivil 2024 1 1 + 30 ∧
    janFirstEntry.funding_news_date = "2024-01-01" ∧
    dateUTC "2024-01-01" = some (daysFromCivil 2024 1 1 * 86400) ∧
    cleanOldEntries (daysFromCivil 2024 1 31 * 86400 + 1) [janFirstEntry] = [] := by
  decide

/-- Claim C5 as amended: the pruning boundary is instant-inclusive, not
day-inclusive.  With `now` decomposed into a civil day and a time-of-day,
a record dated 31 or more days before the run day is always removed; one
dated exactly 30 days before is retained precisely when the run happens
at exactly midnight (time-of-day zero); one dated 29 or fewer days before
is always retained. -/
theorem claim_C5_amended_retention_boundary
    (nowDay tod D : Int) (e : ScriptEntry)
    (h0 : 0 ≤ tod) (h1 : tod < 86400)
    (hd : dateUTC e.funding_news_date = some (D * 86400)) :
    (D ≤ nowDay - 31 → e ∉ cleanOldEntries (nowDay * 86400 + tod) [e]) ∧
    (D = nowDay - 30 → (e ∈ cleanOldEntries (nowDay * 86400 + tod) [e] ↔ tod = 0)) ∧
    (nowDay - 29 ≤ D → e ∈ cleanOldEntries (nowDay * 86400 + tod) [e]) := by
  have hmem : e ∈ cleanOldEntries (nowDay * 86400 + tod) [e] ↔
      nowDay * 86400 + tod - 30 * 86400 ≤ D * 86400 := by
    simp [cleanOldEntries, List.mem_filter, hd]
  refine ⟨fun hD hc => ?_, fun hD => ?_, fun hD => ?_⟩
  · rw [hmem] at hc
    omega
  · rw [hmem]
    omega
  · rw [hmem]
    omega

/-- Witness for the amended C5: the 2024-01-01 record is retained by a
run at exactly midnight of 2024-01-31. -/
theorem claim_C5_witness :
    janFirstEntry ∈ cleanOldEntries (daysFromCivil 2024 1 31 * 86400 + 0) [janFirstEntry] :=
  ((claim_C5_amended_retention_boundary (daysFromCivil 2024 1 31) 0 (daysFromCivil 2024 1 1)
      janFirstEntry (by decide) (by decide) (by decide)).2.1 (by decide)).mpr rfl

/-! ## Claim C7 — provider response validation -/

/-- Claim C7 (confirmed): the parsed provider response is rejected
(`none`, so the caller falls through to the next provider) exactly when
the company name is missing or shorter than two characters or the
sentinel `Unknown`; an accepted response fills each absent optional field
with its default, and the funding date defaults to the article's publish
date. -/
theorem claim_C7_extraction_validation (ex : AIExtraction) (a : Article) (t : String) :
    (parseAIResponse ex a t = none ↔
      (ex.company_name.getD "").length < 2 ∨ ex.company_name.getD "" = "Unknown") ∧
    (∀ r, parseAIResponse ex a t = some r →
      (ex.funding_round = none → r.funding_round = "Unknown") ∧
      (ex.funding_amount = none → r.amount = "Undisclosed") ∧
      (ex.website = none → r.website = "") ∧
      (ex.investor_names = none → r.investor_name = "") ∧
      (ex.industry = none → r.industry = "") ∧
      (ex.funding_date = none → r.funding_news_date = a.pubDate)) := by
  have hkey : parseAIResponse ex a t = none ↔
      (ex.company_name.getD "" = "" ∨ ex.company_name.getD "" = "Unknown" ∨
        (ex.company_name.getD "").length < 2) := by
    unfold parseAIResponse
    split
    · next h =>
      simpa using h
    · next h =>
      simpa using h
  constructor
  · rw [hkey]
    constructor
    · rintro (h | h | h)
      · exact Or.inl (by simp [h])
      · exact Or.inr h
      · exact Or.inl h
    · rintro (h | h)
      · exact Or.inr (Or.inr h)
      · exact Or.inr (Or.inl h)
  · intro r hr
    unfold parseAIResponse at hr
    split at hr
    · exact absurd hr (by simp)
    · have hrec := Option.some.inj hr
      refine ⟨fun h => ?_, fun h => ?_, fun h => ?_, fun h => ?_, fun h => ?_, fun h => ?_⟩ <;>
        rw [← hrec] <;> simp [jsOrStr, h]

/-- Witness for C7: a one-character company name is rejected, and the
sparse-but-valid response is accepted with the round defaulted to
`Unknown`. -/
theorem claim_C7_witness :
    parseAIResponse shortNameExtraction sampleArticle "2024-06-01" = none ∧
    (parseAIResponse sparseExtraction sampleArticle "2024-06-01").map
        (fun r => r.funding_round) = some "Unknown" := by
  constructor
  · exact (claim_C7_extraction_validation shortNameExtraction sampleArticle "2024-06-01").1.mpr
      (Or.inl (by decide))
  · cases hp : parseAIResponse sparseExtraction sampleArticle "2024-06-01" with
    | none =>
      exact absurd
        ((claim_C7_extraction_validation sparseExtraction sampleArticle "2024-06-01").1.mp hp)
        (by decide)
    | some r =>
      simp [((claim_C7_extraction_validation sparseExtraction sampleArticle
        "2024-06-01").2 r hp).1 rfl]

/-! ## Claim C8 — the identity key formula -/

/-- Counterexample for C8 as stated: the code additionally replaces every
whitespace run of the joined key with an underscore, so for a two-word
company name the computed key differs from the claimed
`normalize(company) + "_" + normalize(round) + "_" + date` formula. -/
theorem claim_C8_counterexample :
    createUniqueKey "Acme Corp" "Seed" "2024-01-05" = "acme_corp_seed_2024-01-05" ∧
    specClaimKeyC8 "Acme Corp" "Seed" "2024-01-05" = "acme corp_seed_2024-01-05" ∧
    createUniqueKey "Acme Corp" "Seed" "2024-01-05"
      ≠ specClaimKeyC8 "Acme Corp" "Seed" "2024-01-05" := by
  decide

theorem collapseWSAux_eq_self {cs : List Char} (h : ∀ c ∈ cs, jsIsSpace c = false) :
    collapseWSAux false cs = cs := by
  induction cs with
  | nil => rfl
  | cons c rest ih =>
    have hc : jsIsSpace c = false := h c (List.mem_cons_self _ _)
    rw [collapseWSAux]
    rw [if_neg (by simp [hc])]
    exact congrArg (c :: ·) (ih fun c' hc' => h c' (List.mem_cons_of_mem _ hc'))

/-- Claim C8 as amended: the key is the spec's
`normalize(company) + "_" + normalize(round) + "_" + date` with one more
transformation applied to the joined string: every whitespace run
(including any inside the company, the round, or the date) is replaced by
a single underscore.  The spec's formula is recovered exactly when the
joined string contains no whitespace. -/
theorem claim_C8_amended_key_formula (c r d : String)
    (h : ∀ ch ∈ (specClaimKeyC8 c r d).data, jsIsSpace ch = false) :
    createUniqueKey c r d = specClaimKeyC8 c r d := by
  show collapseWS (specClaimKeyC8 c r d) = specClaimKeyC8 c r d
  unfold collapseWS
  rw [collapseWSAux_eq_self h]

/-- Witness for the amended C8: a one-word company name, where the code's
key and the spec's formula agree. -/
theorem claim_C8_witness :
    createUniqueKey "Acme" "Seed" "2024-01-05" = specClaimKeyC8 "Acme" "Seed" "2024-01-05" :=
  claim_C8_amended_key_formula "Acme" "Seed" "2024-01-05" (by decide)

/-! ## Claim C10 — heuristic amount extraction -/

/-- Claim C10 (confirmed): a dollar amount matched without an M/B/K
suffix is reported with `M` appended (`$5` in otherwise currency-free
text extracts as `$5M`), and whenever any dollar-pattern match exists the
extracted amount is dollar-denominated — the crore branch is reached only
when the dollar match list is empty. -/
theorem claim_C10_amount_extraction :
    extractFundingAmount "Acme raised $5 from angels" = "$5M" ∧
    (∀ t, scanDollar t ≠ [] → ∃ g, extractFundingAmount t = "$" ++ g) ∧
    (∀ t, (∃ s, extractFundingAmount t = "₹" ++ s) → scanDollar t = []) := by
  refine ⟨by decide, ?_, ?_⟩
  · intro t ht
    obtain ⟨p, hp⟩ := Option.isSome_iff_exists.mp (List.getLast?_isSome.mpr ht)
    obtain ⟨g1, g2⟩ := p
    cases g2 with
    | some ch =>
      refine ⟨g1 ++ String.singleton ch, ?_⟩
      unfold extractFundingAmount
      simp only [hp]
    | none =>
      refine ⟨g1 ++ "M", ?_⟩
      unfold extractFundingAmount
      simp only [hp]
  · rintro t ⟨s, hs⟩
    cases hlast : (scanDollar t).getLast? with
    | none => exact List.getLast?_eq_none_iff.mp hlast
    | some p =>
      obtain ⟨g1, g2⟩ := p
      exfalso
      unfold extractFundingAmount at hs
      rw [hlast] at hs
      have hd := congrArg String.data hs
      simp only [String.data_append] at hd
      exact absurd (List.head_eq_of_cons_eq hd) (by decide)

/-- Witness for C10: a bare `$7` input has a dollar match, and the
extraction is dollar-denominated. -/
theorem claim_C10_witness :
    ∃ g, extractFundingAmount "Startup bags $7 in funding" = "$" ++ g :=
  claim_C10_amount_extraction.2.1 "Startup bags $7 in funding" (by decide)

end FundTrackr

